import Mathlib

/-!
Verification of the routing/dispatch core of the ijo-utils repository
(the `ApiServer` class in `src/api/server.js`).

Strings are modelled as lists of characters (`Str`); the JS
`String.prototype.split("/")` is `splitSlash`; the JS plain object used as
parameter map is an association list with JS assignment semantics
(`setKV`: updating an existing key keeps its position, a new key is
appended in insertion order).

The matcher `parsePath` and its worker `parseWalk` translate
`ApiServer.parsePath`; the dispatcher `dispatch`/`handle` translates the
loop of `ApiServer.handle`, recording the trace of callback invocations
(stack index, parameter map) and the terminal outcome; callbacks are
modelled as functions returning `Except ε Bool` (a thrown error or the
boolean "may the chain continue"), and `handle`'s index into the table
identifies each registered callback. `unregister` translates
`ApiServer.unregister` (`findIndex` followed by one-argument `splice`),
`handleError` and `serverRun` translate the error wiring installed by
`ApiServer.initialize`.
-/

set_option autoImplicit false

namespace ApiServer

/-- A JS string, modelled as its sequence of characters. -/
abbrev Str := List Char

/-- One path segment, a piece of a split string. -/
abbrev Seg := List Char

/-- The JS object collecting named path parameters: an association list in
insertion order. -/
abbrev ParameterMap := List (Str × Str)

/-- JS `s.split("/")`: splitting on the one-character separator, yielding
`[""]` on the empty string and keeping empty segments. -/
def splitSlash : Str → List Seg
  | [] => [[]]
  | c :: cs =>
    if c = '/' then [] :: splitSlash cs
    else
      match splitSlash cs with
      | [] => [[c]]
      | s :: ss => (c :: s) :: ss

/-- JS object property assignment `m[k] = v`: an existing key keeps its
position and gets the new value, a new key is appended. -/
def setKV : ParameterMap → Str → Str → ParameterMap
  | [], k, v => [(k, v)]
  | (k1, v1) :: m, k, v => if k1 = k then (k, v) :: m else (k1, v1) :: setKV m k v

/-- JS object property read `m[k]`. -/
def lookup : ParameterMap → Str → Option Str
  | [], _ => none
  | (k1, v1) :: m, k => if k1 = k then some v1 else lookup m k

/-- The keys of a parameter map, in insertion order. -/
def keys (m : ParameterMap) : List Str :=
  m.map Prod.fst

/-- The names declared by the `:name` segments of a template's segment
list, in order. -/
def paramNames (segs : List Seg) : List Str :=
  segs.filterMap fun s => if s.head? = some ':' then some s.tail else none

/-- The loop of `ApiServer.parsePath`, walking the template segments and the
request-path segments in lockstep (the JS loop indexes both arrays by `i`,
so consuming both lists one segment at a time is the same walk; an
out-of-range index reads `undefined`, which here is the empty-list case of
the second argument):
a segment starting with `:` binds the rest of the segment as a parameter
name and requires the path segment to exist; a segment equal to `*`
returns the data accumulated so far at once; any other segment must equal
the path segment (`undefined` compares unequal to every string). -/
def parseWalk : List Seg → List Seg → ParameterMap → Option ParameterMap
  | [], _, data => some data
  | tp :: tps, pps, data =>
    if tp.head? = some ':' then
      match pps with
      | [] => none
      | pp :: rest => parseWalk tps rest (setKV data tp.tail pp)
    else if tp = ['*'] then some data
    else
      match pps with
      | [] => none
      | pp :: rest => if tp = pp then parseWalk tps rest data else none

/-- `ApiServer.parsePath`: split template and path on `/` and walk them,
starting from an empty data object. `none` is the JS `undefined` ("no
match"). -/
def parsePath (template path : Str) : Option ParameterMap :=
  parseWalk (splitSlash template) (splitSlash path) []

example : splitSlash "/user/:id/rename".toList
    = [[], "user".toList, ":id".toList, "rename".toList] := by decide

example : parsePath "/user/:id/rename".toList "/user/123/rename".toList
    = some [("id".toList, "123".toList)] := by decide

example : parsePath "/static/*".toList "/static/css/a.css".toList = some [] := by decide

example : parsePath "/static/*".toList "/static".toList = some [] := by decide

example : parsePath "/a".toList "/a/b".toList = some [] := by decide

example : parsePath "/a/b".toList "/a".toList = none := by decide

/-- One entry of the handler stack: the registered template string and the
method filter (`register` pushes `{path, method, callback}`; the callback
itself is identified by the entry's index in the stack). -/
structure Handler where
  path : Str
  method : Str
  deriving DecidableEq

/-- The "any method" marker `"*"`. -/
def anyMethod : Str := ['*']

/-- `ApiServer.register`: push a new entry at the end of the stack. -/
def register (stack : List Handler) (path method : Str) : List Handler :=
  stack ++ [⟨path, method⟩]

/-- `ApiServer.unregister`: `findIndex` of the first entry whose template
equals the given string, no-op when none is found, then the one-argument
`splice(handlerIndex)`, which deletes every element from that index to the
end of the array. -/
def unregister (stack : List Handler) (path : Str) : List Handler :=
  match stack.findIdx? (fun h => h.path = path) with
  | none => stack
  | some i => stack.take i

/-- How one dispatch ends, as observed on the response object. -/
inductive Outcome (ε : Type) where
  /-- The loop ran off the end of the stack: the dispatcher set
  `res.statusCode = 404` and called `res.end()` itself. -/
  | wrote404
  /-- Some callback returned falsy: the dispatcher returned at once,
  writing nothing to the response. -/
  | handled
  /-- A callback threw: the error escapes `handle`'s promise. -/
  | fault (e : ε)
  deriving DecidableEq

/-- The status code the dispatcher itself wrote to the response. -/
def dispatcherStatus {ε : Type} : Outcome ε → Option Nat
  | Outcome.wrote404 => some 404
  | Outcome.handled => none
  | Outcome.fault _ => none

/-- Whether the dispatcher itself called `res.end()`. -/
def dispatcherEnded {ε : Type} : Outcome ε → Bool
  | Outcome.wrote404 => true
  | Outcome.handled => false
  | Outcome.fault _ => false

/-- The loop of `ApiServer.handle` over the remaining stack, where `i` is
the index of the first remaining entry in the full stack and
`cbs i data` is the awaited result of invoking entry `i`'s callback with
parameter map `data` (a thrown error or the "may the chain continue"
boolean). Returns the trace of callback invocations `(index, data)` in
order together with the outcome: an entry is skipped when its method is
neither `"*"` nor the request method, or when `parsePath` returns no
match; a falsy result returns at once; a truthy result continues with the
rest of the stack; running off the end writes the 404. -/
def dispatch {ε : Type} (cbs : Nat → ParameterMap → Except ε Bool)
    (reqMethod reqPath : Str) :
    List Handler → Nat → List (Nat × ParameterMap) × Outcome ε
  | [], _ => ([], Outcome.wrote404)
  | h :: rest, i =>
    if h.method ≠ anyMethod ∧ h.method ≠ reqMethod then
      dispatch cbs reqMethod reqPath rest (i + 1)
    else
      match parsePath h.path reqPath with
      | none => dispatch cbs reqMethod reqPath rest (i + 1)
      | some data =>
        match cbs i data with
        | Except.error e => ([(i, data)], Outcome.fault e)
        | Except.ok canContinue =>
          if canContinue then
            let r := dispatch cbs reqMethod reqPath rest (i + 1)
            ((i, data) :: r.1, r.2)
          else ([(i, data)], Outcome.handled)

/-- `ApiServer.handle` on a request with the given method and resolved
pathname: run the loop over the whole stack from index `0`. -/
def handle {ε : Type} (cbs : Nat → ParameterMap → Except ε Bool)
    (stack : List Handler) (reqMethod reqPath : Str) :
    List (Nat × ParameterMap) × Outcome ε :=
  dispatch cbs reqMethod reqPath stack 0

/-- `ApiServer.handleError`: rethrow the error. -/
def handleError {ε : Type} (e : ε) : Outcome ε :=
  Outcome.fault e

/-- The request wiring installed by `ApiServer.initialize`:
`this.handle(req, res).catch(err => this.handleError(err))` — a fault
escaping `handle` is routed to `handleError`, everything else passes
through. -/
def serverRun {ε : Type} (cbs : Nat → ParameterMap → Except ε Bool)
    (stack : List Handler) (reqMethod reqPath : Str) :
    List (Nat × ParameterMap) × Outcome ε :=
  let r := handle cbs stack reqMethod reqPath
  match r.2 with
  | Outcome.fault e => (r.1, handleError e)
  | o => (r.1, o)

/-- A callback that always throws, for concrete fault scenarios. -/
def boomCbs : Nat → ParameterMap → Except String Bool :=
  fun _ _ => Except.error "boom"

example :
    handle (ε := Unit) (fun _ _ => Except.ok false)
      [⟨"/a".toList, anyMethod⟩, ⟨"/a".toList, anyMethod⟩]
      "GET".toList "/a".toList
    = ([(0, [])], Outcome.handled) := by decide

example :
    handle (ε := Unit) (fun _ _ => Except.ok true)
      [⟨"/a".toList, anyMethod⟩, ⟨"/a".toList, anyMethod⟩]
      "GET".toList "/a".toList
    = ([(0, []), (1, [])], Outcome.wrote404) := by decide

example :
    handle (fun _ _ => Except.error "boom")
      [⟨"/a".toList, "GET".toList⟩]
      "GET".toList "/a".toList
    = ([(0, [])], Outcome.fault "boom") := by decide

example :
    unregister [⟨"/a".toList, anyMethod⟩, ⟨"/b".toList, anyMethod⟩] "/a".toList
    = [] := by decide

/-! Helper lemmas about splitting. -/

theorem splitSlash_ne_nil : ∀ cs : Str, splitSlash cs ≠ []
  | [] => by simp [splitSlash]
  | c :: cs => by
    simp only [splitSlash]
    split
    · simp
    · split <;> simp

theorem splitSlash_append (a b : Str) :
    splitSlash (a ++ '/' :: b) = splitSlash a ++ splitSlash b := by
  induction a with
  | nil => simp [splitSlash]
  | cons c a ih =>
    by_cases hc : c = '/'
    · subst hc
      simp [splitSlash, ih]
    · cases h : splitSlash a with
      | nil => exact absurd h (splitSlash_ne_nil a)
      | cons s ss =>
        simp only [List.cons_append, splitSlash, if_neg hc, List.append_eq, ih, h]

/-! Helper lemmas about the parameter map. -/

@[simp] theorem keys_nil : keys [] = [] := rfl

@[simp] theorem keys_cons (k v : Str) (m : ParameterMap) :
    keys ((k, v) :: m) = k :: keys m := rfl

theorem mem_keys_setKV :
    ∀ (m : ParameterMap) (k v q : Str), q ∈ keys (setKV m k v) ↔ q ∈ keys m ∨ q = k
  | [], k, v, q => by simp [setKV]
  | (k1, v1) :: m, k, v, q => by
    by_cases h : k1 = k
    · subst h
      simp only [setKV, eq_self_iff_true, if_true, keys_cons, List.mem_cons]
      tauto
    · simp only [setKV, if_neg h, keys_cons, List.mem_cons, mem_keys_setKV m k v q]
      tauto

theorem lookup_setKV : ∀ (m : ParameterMap) (k v : Str), lookup (setKV m k v) k = some v
  | [], k, v => by simp [setKV, lookup]
  | (k1, v1) :: m, k, v => by
    by_cases h : k1 = k
    · subst h
      simp [setKV, lookup]
    · simp [setKV, lookup, h, lookup_setKV m k v]

@[simp] theorem paramNames_nil : paramNames [] = [] := rfl

theorem paramNames_cons_param (s : Seg) (tps : List Seg) (h : s.head? = some ':') :
    paramNames (s :: tps) = s.tail :: paramNames tps := by
  simp [paramNames, List.filterMap_cons, h]

theorem paramNames_cons_other (s : Seg) (tps : List Seg) (h : ¬s.head? = some ':') :
    paramNames (s :: tps) = paramNames tps := by
  simp [paramNames, List.filterMap_cons, h]

/-! Helper lemmas about the matcher walk. -/

theorem parseWalk_star (tps pps : List Seg) (data : ParameterMap) :
    parseWalk (['*'] :: tps) pps data = some data := rfl

theorem parseWalk_none_of_short :
    ∀ (tps pps : List Seg) (data : ParameterMap),
      (['*'] : Seg) ∉ tps → pps.length < tps.length → parseWalk tps pps data = none
  | [], _, _, _, hlen => absurd hlen (by simp)
  | tp :: tps, pps, data, hstar, hlen => by
    have hs1 : tp ≠ ['*'] := fun h => hstar (by simp [h])
    have hs2 : (['*'] : Seg) ∉ tps := fun h => hstar (List.mem_cons_of_mem _ h)
    cases pps with
    | nil =>
      by_cases hp : tp.head? = some ':'
      · simp [parseWalk, hp]
      · simp [parseWalk, hp, hs1]
    | cons pp rest =>
      have hlen2 : rest.length < tps.length := by
        simpa using Nat.lt_of_succ_lt_succ (by simpa using hlen)
      simp only [parseWalk]
      by_cases hp : tp.head? = some ':'
      · rw [if_pos hp]
        exact parseWalk_none_of_short tps rest _ hs2 hlen2
      · rw [if_neg hp, if_neg hs1]
        by_cases he : tp = pp
        · rw [if_pos he]
          exact parseWalk_none_of_short tps rest data hs2 hlen2
        · rw [if_neg he]

theorem parseWalk_take :
    ∀ (tps pps : List Seg) (data : ParameterMap), (['*'] : Seg) ∉ tps →
      parseWalk tps pps data = parseWalk tps (pps.take tps.length) data
  | [], pps, data, _ => by simp [parseWalk]
  | tp :: tps, pps, data, hstar => by
    have hs1 : tp ≠ ['*'] := fun h => hstar (by simp [h])
    have hs2 : (['*'] : Seg) ∉ tps := fun h => hstar (List.mem_cons_of_mem _ h)
    cases pps with
    | nil => simp
    | cons pp rest =>
      simp only [List.length_cons, List.take_succ_cons, parseWalk]
      by_cases hp : tp.head? = some ':'
      · simp only [if_pos hp]
        exact parseWalk_take tps rest _ hs2
      · simp only [if_neg hp, if_neg hs1]
        by_cases he : tp = pp
        · simp only [if_pos he]
          exact parseWalk_take tps rest data hs2
        · simp only [if_neg he]

theorem parseWalk_keys :
    ∀ (tps pps : List Seg) (data m : ParameterMap), (['*'] : Seg) ∉ tps →
      parseWalk tps pps data = some m →
      ∀ q, q ∈ keys m ↔ q ∈ keys data ∨ q ∈ paramNames tps
  | [], pps, data, m, _, h, q => by
    simp only [parseWalk, Option.some.injEq] at h
    subst h
    simp
  | tp :: tps, pps, data, m, hstar, h, q => by
    have hs1 : tp ≠ ['*'] := fun hx => hstar (by simp [hx])
    have hs2 : (['*'] : Seg) ∉ tps := fun hx => hstar (List.mem_cons_of_mem _ hx)
    cases pps with
    | nil =>
      by_cases hp : tp.head? = some ':'
      · simp [parseWalk, hp] at h
      · simp [parseWalk, hp, hs1] at h
    | cons pp rest =>
      simp only [parseWalk] at h
      by_cases hp : tp.head? = some ':'
      · rw [if_pos hp] at h
        have ih := parseWalk_keys tps rest (setKV data tp.tail pp) m hs2 h q
        rw [paramNames_cons_param tp tps hp]
        rw [ih, mem_keys_setKV]
        simp only [List.mem_cons]
        tauto
      · rw [if_neg hp, if_neg hs1] at h
        by_cases he : tp = pp
        · rw [if_pos he] at h
          rw [paramNames_cons_other tp tps hp]
          exact parseWalk_keys tps rest data m hs2 h q
        · rw [if_neg he] at h
          exact absurd h (by simp)

theorem parseWalk_self :
    ∀ (ps tps qs : List Seg) (data : ParameterMap), (['*'] : Seg) ∉ ps →
      ∃ m, parseWalk (ps ++ tps) (ps ++ qs) data = parseWalk tps qs m
        ∧ ∀ q, q ∈ keys m ↔ q ∈ keys data ∨ q ∈ paramNames ps
  | [], tps, qs, data, _ => ⟨data, by simp, by simp⟩
  | s :: ps, tps, qs, data, hstar => by
    have hs1 : s ≠ ['*'] := fun hx => hstar (by simp [hx])
    have hs2 : (['*'] : Seg) ∉ ps := fun hx => hstar (List.mem_cons_of_mem _ hx)
    by_cases hp : s.head? = some ':'
    · obtain ⟨m, hm, hk⟩ := parseWalk_self ps tps qs (setKV data s.tail s) hs2
      refine ⟨m, ?_, ?_⟩
      · simpa [parseWalk, hp] using hm
      · intro q
        rw [hk q, mem_keys_setKV, paramNames_cons_param s ps hp]
        simp only [List.mem_cons]
        tauto
    · obtain ⟨m, hm, hk⟩ := parseWalk_self ps tps qs data hs2
      refine ⟨m, ?_, ?_⟩
      · simpa [parseWalk, hp, hs1] using hm
      · intro q
        rw [hk q, paramNames_cons_other s ps hp]

/-! Helper lemmas about the dispatcher loop. -/

theorem dispatch_calls_bound {ε : Type} (cbs : Nat → ParameterMap → Except ε Bool)
    (rm rp : Str) :
    ∀ (s : List Handler) (i : Nat),
      ∀ c ∈ (dispatch cbs rm rp s i).1, i ≤ c.1 ∧ c.1 < i + s.length
  | [], _ => by simp [dispatch]
  | h1 :: rest, i => by
    intro c hc
    have step : c ∈ (dispatch cbs rm rp rest (i + 1)).1 →
        i ≤ c.1 ∧ c.1 < i + (h1 :: rest).length := by
      intro hrec
      have := dispatch_calls_bound cbs rm rp rest (i + 1) c hrec
      simp only [List.length_cons]
      omega
    simp only [dispatch] at hc
    by_cases hm : h1.method ≠ anyMethod ∧ h1.method ≠ rm
    · rw [if_pos hm] at hc
      exact step hc
    · rw [if_neg hm] at hc
      cases hp : parsePath h1.path rp with
      | none =>
        simp only [hp] at hc
        exact step hc
      | some data =>
        simp only [hp] at hc
        cases hcb : cbs i data with
        | error e =>
          simp only [hcb] at hc
          simp only [List.mem_singleton] at hc
          subst hc
          refine ⟨Nat.le_refl i, ?_⟩
          show i < i + (h1 :: rest).length
          simp only [List.length_cons]
          omega
        | ok b =>
          simp only [hcb] at hc
          cases b with
          | false =>
            simp only [Bool.false_eq_true, if_false, List.mem_singleton] at hc
            subst hc
            refine ⟨Nat.le_refl i, ?_⟩
            show i < i + (h1 :: rest).length
            simp only [List.length_cons]
            omega
          | true =>
            simp only [eq_self_iff_true, if_true, List.mem_cons] at hc
            rcases hc with rfl | hc
            · refine ⟨Nat.le_refl i, ?_⟩
              show i < i + (h1 :: rest).length
              simp only [List.length_cons]
              omega
            · exact step hc

theorem dispatch_append_404 {ε : Type} (cbs : Nat → ParameterMap → Except ε Bool)
    (rm rp : Str) :
    ∀ (s1 : List Handler) (i : Nat) (t : List (Nat × ParameterMap)) (s2 : List Handler),
      dispatch cbs rm rp s1 i = (t, Outcome.wrote404) →
      dispatch cbs rm rp (s1 ++ s2) i
        = (t ++ (dispatch cbs rm rp s2 (i + s1.length)).1,
           (dispatch cbs rm rp s2 (i + s1.length)).2)
  | [], i, t, s2, h => by
    have ht : ([] : List (Nat × ParameterMap)) = t := congrArg Prod.fst h
    subst ht
    simp [dispatch]
  | h1 :: s1, i, t, s2, h => by
    simp only [List.cons_append, dispatch] at h ⊢
    by_cases hm : h1.method ≠ anyMethod ∧ h1.method ≠ rm
    · rw [if_pos hm] at h ⊢
      have := dispatch_append_404 cbs rm rp s1 (i + 1) t s2 h
      simp only [List.length_cons]
      rw [show i + (s1.length + 1) = i + 1 + s1.length from by omega]
      exact this
    · rw [if_neg hm] at h ⊢
      cases hp : parsePath h1.path rp with
      | none =>
        simp only [hp] at h ⊢
        have := dispatch_append_404 cbs rm rp s1 (i + 1) t s2 h
        simp only [List.length_cons]
        rw [show i + (s1.length + 1) = i + 1 + s1.length from by omega]
        exact this
      | some data =>
        simp only [hp] at h ⊢
        cases hcb : cbs i data with
        | error e =>
          simp only [hcb] at h
          have hsnd : Outcome.fault e = Outcome.wrote404 := congrArg Prod.snd h
          exact absurd hsnd (by simp)
        | ok b =>
          simp only [hcb] at h ⊢
          cases b with
          | false =>
            simp only [Bool.false_eq_true, if_false] at h
            have hsnd : Outcome.handled = Outcome.wrote404 := congrArg Prod.snd h
            exact absurd hsnd (by simp)
          | true =>
            simp only [eq_self_iff_true, if_true] at h ⊢
            cases hr : dispatch cbs rm rp s1 (i + 1) with
            | mk t1 o1 =>
              rw [hr] at h
              injection h with ht ho
              subst ho
              subst ht
              have ih := dispatch_append_404 cbs rm rp s1 (i + 1) t1 s2 hr
              simp only [List.append_eq, ih, List.cons_append, List.length_cons]
              rw [show i + (s1.length + 1) = i + 1 + s1.length from by omega]

theorem dispatch_append_stop {ε : Type} (cbs : Nat → ParameterMap → Except ε Bool)
    (rm rp : Str) :
    ∀ (s1 : List Handler) (i : Nat) (t : List (Nat × ParameterMap)) (o : Outcome ε)
      (s2 : List Handler),
      dispatch cbs rm rp s1 i = (t, o) → o ≠ Outcome.wrote404 →
      dispatch cbs rm rp (s1 ++ s2) i = (t, o)
  | [], i, t, o, s2, h, ho => by
    have : Outcome.wrote404 = o := congrArg Prod.snd h
    exact absurd this.symm ho
  | h1 :: s1, i, t, o, s2, h, ho => by
    simp only [List.cons_append, dispatch] at h ⊢
    by_cases hm : h1.method ≠ anyMethod ∧ h1.method ≠ rm
    · rw [if_pos hm] at h ⊢
      exact dispatch_append_stop cbs rm rp s1 (i + 1) t o s2 h ho
    · rw [if_neg hm] at h ⊢
      cases hp : parsePath h1.path rp with
      | none =>
        simp only [hp] at h ⊢
        exact dispatch_append_stop cbs rm rp s1 (i + 1) t o s2 h ho
      | some data =>
        simp only [hp] at h ⊢
        cases hcb : cbs i data with
        | error e =>
          simp only [hcb] at h ⊢
          exact h
        | ok b =>
          simp only [hcb] at h ⊢
          cases b with
          | false =>
            simp only [Bool.false_eq_true, if_false] at h ⊢
            exact h
          | true =>
            simp only [eq_self_iff_true, if_true] at h ⊢
            cases hr : dispatch cbs rm rp s1 (i + 1) with
            | mk t1 o1 =>
              rw [hr] at h
              injection h with ht ho1
              dsimp only at ht ho1
              have ih := dispatch_append_stop cbs rm rp s1 (i + 1) t1 o1 s2 hr
                (by rw [ho1]; exact ho)
              simp only [List.append_eq, ih, ht, ho1]

theorem dispatch_all_ok {ε : Type} (cbs : Nat → ParameterMap → Except ε Bool)
    (rm rp : Str) :
    ∀ (s : List Handler) (i : Nat),
      (∀ c ∈ (dispatch cbs rm rp s i).1, cbs c.1 c.2 = Except.ok true) →
      (dispatch cbs rm rp s i).2 = Outcome.wrote404
  | [], _, _ => rfl
  | h1 :: s, i, hall => by
    simp only [dispatch] at hall ⊢
    by_cases hm : h1.method ≠ anyMethod ∧ h1.method ≠ rm
    · rw [if_pos hm] at hall ⊢
      exact dispatch_all_ok cbs rm rp s (i + 1) hall
    · rw [if_neg hm] at hall ⊢
      cases hp : parsePath h1.path rp with
      | none =>
        simp only [hp] at hall ⊢
        exact dispatch_all_ok cbs rm rp s (i + 1) hall
      | some data =>
        simp only [hp] at hall ⊢
        cases hcb : cbs i data with
        | error e =>
          simp only [hcb] at hall ⊢
          have h2 : cbs i data = Except.ok true := hall (i, data) (by simp)
          rw [hcb] at h2
          exact absurd h2 (by simp)
        | ok b =>
          simp only [hcb] at hall ⊢
          cases b with
          | false =>
            simp only [Bool.false_eq_true, if_false] at hall ⊢
            have h2 : cbs i data = Except.ok true := hall (i, data) (by simp)
            rw [hcb] at h2
            exact absurd h2 (by simp)
          | true =>
            simp only [eq_self_iff_true, if_true] at hall ⊢
            exact dispatch_all_ok cbs rm rp s (i + 1)
              (fun c hc => hall c (List.mem_cons_of_mem _ hc))

theorem dispatch_skip_all {ε : Type} (cbs : Nat → ParameterMap → Except ε Bool)
    (rm rp : Str) :
    ∀ (s : List Handler) (i : Nat),
      (∀ h ∈ s, (h.method ≠ anyMethod ∧ h.method ≠ rm) ∨ parsePath h.path rp = none) →
      dispatch cbs rm rp s i = ([], Outcome.wrote404)
  | [], _, _ => rfl
  | h1 :: s, i, hall => by
    have hrest : ∀ h ∈ s, (h.method ≠ anyMethod ∧ h.method ≠ rm) ∨ parsePath h.path rp = none :=
      fun h2 hh => hall h2 (List.mem_cons_of_mem _ hh)
    simp only [dispatch]
    rcases hall h1 (List.mem_cons_self h1 s) with hm | hp
    · rw [if_pos hm]
      exact dispatch_skip_all cbs rm rp s (i + 1) hrest
    · by_cases hm2 : h1.method ≠ anyMethod ∧ h1.method ≠ rm
      · rw [if_pos hm2]
        exact dispatch_skip_all cbs rm rp s (i + 1) hrest
      · rw [if_neg hm2]
        simp only [hp]
        exact dispatch_skip_all cbs rm rp s (i + 1) hrest

theorem filter_idx_nil (i : Nat) :
    ∀ l : List (Nat × ParameterMap), (∀ c ∈ l, c.1 ≠ i) →
      l.filter (fun c => c.1 == i) = []
  | [], _ => rfl
  | c :: l, hl => by
    have h1 : c.1 ≠ i := hl c (List.mem_cons_self c l)
    have h2 : (c.1 == i) = false := beq_eq_false_iff_ne.mpr h1
    simp [List.filter_cons, h2,
      filter_idx_nil i l (fun d hd => hl d (List.mem_cons_of_mem _ hd))]

theorem handle_reach_step {ε : Type} (cbs : Nat → ParameterMap → Except ε Bool)
    (rm rp : Str) (pre post : List Handler) (h : Handler)
    (t1 : List (Nat × ParameterMap))
    (hreach : dispatch cbs rm rp pre 0 = (t1, Outcome.wrote404)) :
    handle cbs (pre ++ h :: post) rm rp
      = (t1 ++ (dispatch cbs rm rp (h :: post) pre.length).1,
         (dispatch cbs rm rp (h :: post) pre.length).2) := by
  show dispatch cbs rm rp (pre ++ h :: post) 0 = _
  rw [dispatch_append_404 cbs rm rp pre 0 t1 (h :: post) hreach]
  simp only [Nat.zero_add]

theorem dispatch_cons_hit {ε : Type} (cbs : Nat → ParameterMap → Except ε Bool)
    (rm rp : Str) (h : Handler) (post : List Handler) (i : Nat) (data : ParameterMap)
    (hm : ¬(h.method ≠ anyMethod ∧ h.method ≠ rm))
    (hp : parsePath h.path rp = some data) :
    dispatch cbs rm rp (h :: post) i
      = match cbs i data with
        | Except.error e => ([(i, data)], Outcome.fault e)
        | Except.ok true =>
            ((i, data) :: (dispatch cbs rm rp post (i + 1)).1,
             (dispatch cbs rm rp post (i + 1)).2)
        | Except.ok false => ([(i, data)], Outcome.handled) := by
  cases hcb : cbs i data with
  | error e => simp [dispatch, hm, hp, hcb]
  | ok b =>
    cases b with
    | true => simp [dispatch, hm, hp, hcb]
    | false => simp [dispatch, hm, hp, hcb]

/-! The claims. -/

/-- C1 (code bug): the claim says `unregister(t)` removes exactly the first
entry whose template equals `t` and leaves every other entry — including
entries registered after the removed one — in the table. The code instead
calls the one-argument `splice(handlerIndex)`, which truncates the stack
from the found index: here, with `"/a"` then `"/b"` registered,
`unregister("/a")` leaves an empty table, so the later entry `"/b"` is
gone as well. -/
theorem c1_unregister_truncates :
    unregister [Handler.mk "/a".toList anyMethod, Handler.mk "/b".toList anyMethod]
        "/a".toList = []
    ∧ Handler.mk "/b".toList anyMethod
        ∈ [Handler.mk "/a".toList anyMethod, Handler.mk "/b".toList anyMethod]
    ∧ ([] : List Handler) ≠ [Handler.mk "/b".toList anyMethod] := by decide

/-- C2 (counterexample): the claim says a wildcard-free template whose
segment count differs from the path's never matches. The template `"/a"`
has no wildcard segment and two segments, the path `"/a/b"` has three,
yet `parsePath` returns a match (the extra path segment is never
compared). -/
theorem c2_counterexample :
    (['*'] : Seg) ∉ splitSlash "/a".toList
    ∧ (splitSlash "/a".toList).length ≠ (splitSlash "/a/b".toList).length
    ∧ parsePath "/a".toList "/a/b".toList = some [] := by decide

/-- C2 (amended): for a wildcard-free template, if the template has more
segments than the path the match fails; in the other direction the extra
path segments beyond the template's length are never compared — the match
behaves exactly as on the path truncated to the template's segment count,
so a longer path can match (prefix matching). -/
theorem c2_amended (t p : Str) (hw : (['*'] : Seg) ∉ splitSlash t) :
    ((splitSlash p).length < (splitSlash t).length → parsePath t p = none)
    ∧ parsePath t p
        = parseWalk (splitSlash t) ((splitSlash p).take (splitSlash t).length) [] := by
  constructor
  · intro hlen
    exact parseWalk_none_of_short (splitSlash t) (splitSlash p) [] hw hlen
  · exact parseWalk_take (splitSlash t) (splitSlash p) [] hw

/-- C2 (witness): the amended claim at the concrete input `"/a/b"` vs
`"/a"` — template longer than path, no match. -/
theorem c2_witness : parsePath "/a/b".toList "/a".toList = none :=
  (c2_amended "/a/b".toList "/a".toList (by decide)).1 (by decide)

/-- C7: at a named-parameter template segment `:name`, matching fails when
the positionally corresponding request segment does not exist, and
otherwise records that segment's value (any string, the empty string
included) under `name` and continues the walk. -/
theorem c7_named_param (name : Str) (tps : List Seg) (data : ParameterMap) :
    parseWalk ((':' :: name) :: tps) [] data = none
    ∧ ∀ pp rest, parseWalk ((':' :: name) :: tps) (pp :: rest) data
          = parseWalk tps rest (setKV data name pp)
        ∧ lookup (setKV data name pp) name = some pp := by
  refine ⟨rfl, ?_⟩
  intro pp rest
  exact ⟨rfl, lookup_setKV data name pp⟩

/-- C8: matching is total — for every template and path it returns either a
parameter map or the no-match result — and the dispatch traversal never
itself faults: every fault in a dispatch outcome originates from some
invoked callback having thrown it. -/
theorem c8_totality :
    (∀ t p : Str, (∃ m, parsePath t p = some m) ∨ parsePath t p = none)
    ∧ (∀ (ε : Type) (cbs : Nat → ParameterMap → Except ε Bool) (rm rp : Str)
        (stack : List Handler) (i : Nat) (e : ε),
        (dispatch cbs rm rp stack i).2 = Outcome.fault e →
        ∃ c ∈ (dispatch cbs rm rp stack i).1, cbs c.1 c.2 = Except.error e) := by
  constructor
  · intro t p
    cases hm : parsePath t p with
    | none => exact Or.inr rfl
    | some m => exact Or.inl ⟨m, rfl⟩
  · intro ε cbs rm rp stack
    induction stack with
    | nil =>
      intro i e h
      exact absurd h (by simp [dispatch])
    | cons h1 s ih =>
      intro i e hf
      simp only [dispatch] at hf ⊢
      by_cases hm : h1.method ≠ anyMethod ∧ h1.method ≠ rm
      · rw [if_pos hm] at hf ⊢
        exact ih (i + 1) e hf
      · rw [if_neg hm] at hf ⊢
        cases hp : parsePath h1.path rp with
        | none =>
          simp only [hp] at hf ⊢
          exact ih (i + 1) e hf
        | some data =>
          simp only [hp] at hf ⊢
          cases hcb : cbs i data with
          | error e2 =>
            simp only [hcb] at hf ⊢
            have hfe : Outcome.fault e2 = Outcome.fault e := hf
            have he : e2 = e := by injection hfe
            refine ⟨(i, data), by simp, ?_⟩
            rw [hcb, he]
          | ok b =>
            simp only [hcb] at hf ⊢
            cases b with
            | false =>
              have hfe : Outcome.handled = Outcome.fault e := hf
              exact absurd hfe (by simp)
            | true =>
              simp only [eq_self_iff_true, if_true] at hf ⊢
              have hf2 : (dispatch cbs rm rp s (i + 1)).2 = Outcome.fault e := hf
              obtain ⟨c, hc, hcc⟩ := ih (i + 1) e hf2
              exact ⟨c, by simp only [List.mem_cons]; exact Or.inr hc, hcc⟩

/-- C8 (witness): a concrete dispatch whose outcome is a fault, with the
originating callback invocation exhibited. -/
theorem c8_witness :
    ∃ c ∈ (dispatch boomCbs "GET".toList "/a".toList
        [Handler.mk "/a".toList anyMethod] 0).1,
      boomCbs c.1 c.2 = Except.error "boom" :=
  c8_totality.2 String boomCbs "GET".toList "/a".toList
    [Handler.mk "/a".toList anyMethod] 0 "boom" rfl

/-- C10: a `*` segment anywhere in the template — not only in final
position — makes the walk succeed as soon as it is reached, returning the
parameters accumulated so far and ignoring all later template segments and
all remaining path segments; concretely, `"/a/*\x2fb"` matches `"/a/x"`
even though the trailing `"b"` is never compared. -/
theorem c10_wildcard_anywhere :
    (∀ (tps pps : List Seg) (data : ParameterMap),
      parseWalk (['*'] :: tps) pps data = some data)
    ∧ parsePath "/a/*/b".toList "/a/x".toList = some [] :=
  ⟨fun tps pps data => parseWalk_star tps pps data, by decide⟩

/-- C3 (counterexample): the claim says every registered entry whose method
and path match the request has its callback invoked exactly once. Here the
second entry matches the request (`anyMethod`, and its template `"/a"`
matches the path `"/a"`), but because the earlier matching entry's
callback returned falsy, the dispatcher never invokes the second entry's
callback: the trace holds no invocation of index 1. -/
theorem c3_counterexample :
    (anyMethod = anyMethod ∨ anyMethod = "GET".toList)
    ∧ parsePath "/a".toList "/a".toList = some []
    ∧ (handle (ε := Unit) (fun _ _ => Except.ok false)
        [Handler.mk "/a".toList anyMethod, Handler.mk "/a".toList anyMethod]
        "GET".toList "/a".toList).1.filter (fun c => c.1 == 1) = [] := by decide

/-- C3 (amended): for a registered entry whose method and path match the
request, provided dispatch reaches the entry — every earlier entry either
does not match or its callback returned truthy — `handle` invokes the
entry's callback exactly once, with exactly the parameter map the matcher
extracted from the template and path; for a wildcard-free template that
map's keys are exactly the template's named parameters. -/
theorem c3_amended {ε : Type} (cbs : Nat → ParameterMap → Except ε Bool)
    (rm rp : Str) (pre post : List Handler) (h : Handler)
    (t1 : List (Nat × ParameterMap)) (data : ParameterMap)
    (hreach : dispatch cbs rm rp pre 0 = (t1, Outcome.wrote404))
    (hm : ¬(h.method ≠ anyMethod ∧ h.method ≠ rm))
    (hp : parsePath h.path rp = some data) :
    (handle cbs (pre ++ h :: post) rm rp).1.filter (fun c => c.1 == pre.length)
      = [(pre.length, data)]
    ∧ ((['*'] : Seg) ∉ splitSlash h.path →
        ∀ q, q ∈ keys data ↔ q ∈ paramNames (splitSlash h.path)) := by
  have hs := handle_reach_step cbs rm rp pre post h t1 hreach
  have hc := dispatch_cons_hit cbs rm rp h post pre.length data hm hp
  have hb1 : ∀ c ∈ t1, c.1 ≠ pre.length := by
    intro c hcm
    have := dispatch_calls_bound cbs rm rp pre 0 c (by rw [hreach]; exact hcm)
    omega
  have hb2 : ∀ c ∈ (dispatch cbs rm rp post (pre.length + 1)).1, c.1 ≠ pre.length := by
    intro c hcm
    have := dispatch_calls_bound cbs rm rp post (pre.length + 1) c hcm
    omega
  constructor
  · rw [hs, hc]
    cases hcb : cbs pre.length data with
    | error e =>
      simp only [hcb]
      rw [List.filter_append, filter_idx_nil pre.length t1 hb1]
      simp
    | ok b =>
      cases b with
      | false =>
        simp only [hcb]
        rw [List.filter_append, filter_idx_nil pre.length t1 hb1]
        simp
      | true =>
        simp only [hcb]
        rw [List.filter_append, filter_idx_nil pre.length t1 hb1, List.filter_cons]
        rw [filter_idx_nil pre.length _ hb2]
        simp
  · intro hw q
    have hp2 : parseWalk (splitSlash h.path) (splitSlash rp) [] = some data := hp
    have := parseWalk_keys (splitSlash h.path) (splitSlash rp) [] data hw hp2 q
    simpa using this

/-- C3 (witness): the amended claim at a concrete input — one registered
entry `"/u/:id"`, request `GET /u/7`: its callback is invoked exactly once
with `{id: "7"}`, whose keys are exactly the template's named
parameters. -/
theorem c3_witness :
    (handle (ε := Unit) (fun _ _ => Except.ok true)
        [Handler.mk "/u/:id".toList anyMethod] "GET".toList "/u/7".toList).1.filter
        (fun c => c.1 == 0)
      = [(0, [("id".toList, "7".toList)])]
    ∧ ((['*'] : Seg) ∉ splitSlash "/u/:id".toList →
        ∀ q, q ∈ keys [("id".toList, "7".toList)]
          ↔ q ∈ paramNames (splitSlash "/u/:id".toList)) :=
  c3_amended (fun _ _ => Except.ok true) "GET".toList "/u/7".toList [] []
    (Handler.mk "/u/:id".toList anyMethod) [] [("id".toList, "7".toList)] rfl
    (by decide) (by decide)

/-- C4: when dispatch reaches a matching entry, a falsy callback result
stops the dispatch at once — the trace ends with that invocation, no entry
after it is tried, and no 404 is written — while a truthy result continues
the traversal with the remaining entries in registration order. -/
theorem c4_short_circuit {ε : Type} (cbs : Nat → ParameterMap → Except ε Bool)
    (rm rp : Str) (pre post : List Handler) (h : Handler)
    (t1 : List (Nat × ParameterMap)) (data : ParameterMap)
    (hreach : dispatch cbs rm rp pre 0 = (t1, Outcome.wrote404))
    (hm : ¬(h.method ≠ anyMethod ∧ h.method ≠ rm))
    (hp : parsePath h.path rp = some data) :
    (cbs pre.length data = Except.ok false →
      handle cbs (pre ++ h :: post) rm rp
          = (t1 ++ [(pre.length, data)], Outcome.handled)
      ∧ dispatcherStatus (handle cbs (pre ++ h :: post) rm rp).2 = none
      ∧ ∀ c ∈ (handle cbs (pre ++ h :: post) rm rp).1, c.1 ≤ pre.length)
    ∧ (cbs pre.length data = Except.ok true →
      handle cbs (pre ++ h :: post) rm rp
        = (t1 ++ (pre.length, data) :: (dispatch cbs rm rp post (pre.length + 1)).1,
           (dispatch cbs rm rp post (pre.length + 1)).2)) := by
  have hs := handle_reach_step cbs rm rp pre post h t1 hreach
  have hc := dispatch_cons_hit cbs rm rp h post pre.length data hm hp
  constructor
  · intro hcb
    have hfull : handle cbs (pre ++ h :: post) rm rp
        = (t1 ++ [(pre.length, data)], Outcome.handled) := by
      rw [hs, hc]
      simp only [hcb]
    refine ⟨hfull, by rw [hfull]; rfl, ?_⟩
    intro c hcm
    rw [hfull] at hcm
    simp only [List.mem_append, List.mem_singleton] at hcm
    rcases hcm with hcm | rfl
    · have := dispatch_calls_bound cbs rm rp pre 0 c (by rw [hreach]; exact hcm)
      omega
    · exact Nat.le_refl _
  · intro hcb
    rw [hs, hc]
    simp only [hcb]

/-- C4 (witness): two entries both matching `"/a"`, the first callback
returning falsy: dispatch stops after the first invocation, the second
entry is never tried, and the dispatcher writes no 404. -/
theorem c4_witness :
    handle (ε := Unit) (fun _ _ => Except.ok false)
        [Handler.mk "/a".toList anyMethod, Handler.mk "/a".toList anyMethod]
        "GET".toList "/a".toList = ([(0, [])], Outcome.handled)
    ∧ dispatcherStatus (handle (ε := Unit) (fun _ _ => Except.ok false)
        [Handler.mk "/a".toList anyMethod, Handler.mk "/a".toList anyMethod]
        "GET".toList "/a".toList).2 = none
    ∧ ∀ c ∈ (handle (ε := Unit) (fun _ _ => Except.ok false)
        [Handler.mk "/a".toList anyMethod, Handler.mk "/a".toList anyMethod]
        "GET".toList "/a".toList).1, c.1 ≤ 0 :=
  (c4_short_circuit (fun _ _ => Except.ok false) "GET".toList "/a".toList []
    [Handler.mk "/a".toList anyMethod] (Handler.mk "/a".toList anyMethod) [] []
    rfl (by decide) (by decide)).1 rfl

/-- C5: if every invoked callback returned truthy — in particular when no
entry matched and nothing was invoked — the traversal exhausts the table
and the dispatcher itself sets status 404 and completes the response; and
when no entry matches the request, no callback is invoked at all. -/
theorem c5_exhaust_404 {ε : Type} (cbs : Nat → ParameterMap → Except ε Bool)
    (stack : List Handler) (rm rp : Str) :
    ((∀ c ∈ (handle cbs stack rm rp).1, cbs c.1 c.2 = Except.ok true) →
      (handle cbs stack rm rp).2 = Outcome.wrote404
      ∧ dispatcherStatus (handle cbs stack rm rp).2 = some 404
      ∧ dispatcherEnded (handle cbs stack rm rp).2 = true)
    ∧ ((∀ h ∈ stack, (h.method ≠ anyMethod ∧ h.method ≠ rm)
          ∨ parsePath h.path rp = none) →
      handle cbs stack rm rp = ([], Outcome.wrote404)) := by
  constructor
  · intro hall
    have h4 : (handle cbs stack rm rp).2 = Outcome.wrote404 :=
      dispatch_all_ok cbs rm rp stack 0 hall
    exact ⟨h4, by rw [h4]; rfl, by rw [h4]; rfl⟩
  · intro hnone
    exact dispatch_skip_all cbs rm rp stack 0 hnone

/-- C5 (witness): no registrations, request `GET /x`: status 404 written,
response completed, no callback invoked. -/
theorem c5_witness :
    ((handle (ε := Unit) (fun _ _ => Except.ok true) [] "GET".toList "/x".toList).2
        = Outcome.wrote404
      ∧ dispatcherStatus ((handle (ε := Unit) (fun _ _ => Except.ok true) []
          "GET".toList "/x".toList).2) = some 404
      ∧ dispatcherEnded ((handle (ε := Unit) (fun _ _ => Except.ok true) []
          "GET".toList "/x".toList).2) = true)
    ∧ handle (ε := Unit) (fun _ _ => Except.ok true) [] "GET".toList "/x".toList
        = ([], Outcome.wrote404) :=
  ⟨(c5_exhaust_404 (fun _ _ => Except.ok true) [] "GET".toList "/x".toList).1
      (by intro c hcm; exact absurd hcm (by simp [handle, dispatch])),
   (c5_exhaust_404 (fun _ _ => Except.ok true) [] "GET".toList "/x".toList).2
      (by simp)⟩

/-- C6: a template of the form `stem` followed by `/` and a trailing `*`
segment (with no wildcard inside `stem`) matches every path of the form
`stem` + `/` + anything, and also matches the path `stem` itself with
nothing after it; in each such match the parameter map's keys are exactly
the named parameters declared before the wildcard. -/
theorem c6_trailing_wildcard (stem rest : Str)
    (hs : (['*'] : Seg) ∉ splitSlash stem) :
    (∃ m, parsePath (stem ++ '/' :: ['*']) (stem ++ '/' :: rest) = some m
        ∧ ∀ q, q ∈ keys m ↔ q ∈ paramNames (splitSlash stem))
    ∧ (∃ m, parsePath (stem ++ '/' :: ['*']) stem = some m
        ∧ ∀ q, q ∈ keys m ↔ q ∈ paramNames (splitSlash stem)) := by
  have htpl : splitSlash (stem ++ '/' :: ['*']) = splitSlash stem ++ [['*']] := by
    rw [splitSlash_append]
    rfl
  constructor
  · obtain ⟨m, hm, hk⟩ := parseWalk_self (splitSlash stem) [['*']] (splitSlash rest) [] hs
    refine ⟨m, ?_, ?_⟩
    · show parseWalk (splitSlash (stem ++ '/' :: ['*']))
          (splitSlash (stem ++ '/' :: rest)) [] = some m
      rw [htpl, splitSlash_append, hm]
      exact parseWalk_star [] (splitSlash rest) m
    · intro q
      simpa using hk q
  · obtain ⟨m, hm, hk⟩ := parseWalk_self (splitSlash stem) [['*']] [] [] hs
    rw [List.append_nil] at hm
    refine ⟨m, ?_, ?_⟩
    · show parseWalk (splitSlash (stem ++ '/' :: ['*'])) (splitSlash stem) [] = some m
      rw [htpl, hm]
      exact parseWalk_star [] [] m
    · intro q
      simpa using hk q

/-- C6 (witness): the wildcard template built from stem `"/static"` matches
`"/static/css/a.css"` and `"/static"`, in both cases with an empty
parameter map (no named parameters before the wildcard). -/
theorem c6_witness :
    (∃ m, parsePath ("/static".toList ++ '/' :: ['*'])
          ("/static".toList ++ '/' :: "css/a.css".toList) = some m
        ∧ ∀ q, q ∈ keys m ↔ q ∈ paramNames (splitSlash "/static".toList))
    ∧ (∃ m, parsePath ("/static".toList ++ '/' :: ['*']) "/static".toList = some m
        ∧ ∀ q, q ∈ keys m ↔ q ∈ paramNames (splitSlash "/static".toList)) :=
  c6_trailing_wildcard "/static".toList "css/a.css".toList (by decide)

/-- C9: a fault thrown by a reached callback is not caught inside the
dispatch loop — it becomes the outcome of `handle` — and the wiring
installed by `initialize` routes it to the process-wide `handleError`
hook, whose default behavior is to rethrow it. -/
theorem c9_fault_hook {ε : Type} (cbs : Nat → ParameterMap → Except ε Bool)
    (rm rp : Str) (pre post : List Handler) (h : Handler)
    (t1 : List (Nat × ParameterMap)) (data : ParameterMap) (e : ε)
    (hreach : dispatch cbs rm rp pre 0 = (t1, Outcome.wrote404))
    (hm : ¬(h.method ≠ anyMethod ∧ h.method ≠ rm))
    (hp : parsePath h.path rp = some data)
    (he : cbs pre.length data = Except.error e) :
    (handle cbs (pre ++ h :: post) rm rp).2 = Outcome.fault e
    ∧ (serverRun cbs (pre ++ h :: post) rm rp).2 = Outcome.fault e
    ∧ handleError e = (Outcome.fault e : Outcome ε) := by
  have hs := handle_reach_step cbs rm rp pre post h t1 hreach
  have hc := dispatch_cons_hit cbs rm rp h post pre.length data hm hp
  have hfull : handle cbs (pre ++ h :: post) rm rp
      = (t1 ++ [(pre.length, data)], Outcome.fault e) := by
    rw [hs, hc]
    simp only [he]
  refine ⟨by rw [hfull], ?_, rfl⟩
  simp [serverRun, hfull, handleError]

/-- C9 (witness): one registered entry whose callback throws `"boom"`; the
fault escapes `handle` and the hook rethrows it. -/
theorem c9_witness :
    (handle boomCbs [Handler.mk "/a".toList anyMethod]
        "GET".toList "/a".toList).2 = Outcome.fault "boom"
    ∧ (serverRun boomCbs [Handler.mk "/a".toList anyMethod]
        "GET".toList "/a".toList).2 = Outcome.fault "boom"
    ∧ handleError "boom" = (Outcome.fault "boom" : Outcome String) :=
  c9_fault_hook boomCbs "GET".toList "/a".toList [] []
    (Handler.mk "/a".toList anyMethod) [] [] "boom" rfl (by decide) (by decide) rfl

end ApiServer
